import Mathlib

/-!
Shallow embedding of the transmission-mcp TypeScript sources
(`src/rpcClient.ts`, `src/utils.ts`, `src/constants.ts`) in Lean 4,
together with theorems settling the frozen claims about the spec.

JavaScript/JSON values are modelled by the inductive `JVal`; `undefined`
(an absent value) is modelled by `Option JVal` with `none` for absence,
while JSON `null` is the explicit value `JVal.vNull`.  Parsed JSON
objects have pairwise-distinct keys, so an association list with a
first-match lookup is a faithful object model.
-/

/-- Model of a JSON / JavaScript runtime value. -/
inductive JVal where
  | vNull
  | vBool (b : Bool)
  | vNum (n : Int)
  | vStr (s : String)
  | vArr (xs : List JVal)
  | vObj (fields : List (String × JVal))

/-- First-match lookup in an object field list. -/
def lookupField : List (String × JVal) → String → Option JVal
  | [], _ => none
  | (k, v) :: rest, key => if k = key then some v else lookupField rest key

/-- Property access `o[key]`: `none` models JavaScript `undefined`
(missing key, or access on a non-object). -/
def getF (o : JVal) (key : String) : Option JVal :=
  match o with
  | .vObj fs => lookupField fs key
  | _ => none

/-- JavaScript nullish coalescing `a ?? b`: `a` unless `a` is
`undefined` (`none`) or `null` (`some vNull`). -/
def qq (a b : Option JVal) : Option JVal :=
  match a with
  | some .vNull => b
  | some v => some v
  | none => b

/-- JavaScript truthiness of a JSON value. -/
def truthy : JVal → Bool
  | .vNull => false
  | .vBool b => b
  | .vNum n => n != 0
  | .vStr s => !s.isEmpty
  | .vArr _ => true
  | .vObj _ => true

/-- Normalize a possibly nullish value to `none`; used to compare a
`??`-chain against the simple first-non-absent selection. -/
def nnOpt : Option JVal → Option JVal
  | some .vNull => none
  | some v => some v
  | none => none

/-- First non-nullish value in a candidate list (`none` if all are
nullish). -/
def firstNonNullish : List (Option JVal) → Option JVal
  | [] => none
  | c :: rest =>
    match c with
    | some .vNull => firstNonNullish rest
    | some v => some v
    | none => firstNonNullish rest

/-!
Transport layer: `TransmissionRpcClient.send` (src/rpcClient.ts).

The daemon is modelled as a script: the list of successive HTTP
responses it returns to the successive (re)sent requests of one logical
call.  `send` consumes the script; it returns the parsed body of the
first response it accepts, the session id held afterwards, and the
number of resends performed.  `none` models the code running past the
end of the script (the code itself has no bound on the number of
resends).
-/

/-- An HTTP response from the daemon: status code, the value of the
`x-transmission-session-id` response header if present, and the parsed
JSON body. -/
structure HttpResponse where
  status : Nat
  sessionHeader : Option String
  payload : JVal

/-- Model of `TransmissionRpcClient.send`: on a 409 response carrying a
new session id header, store the header and resend (recursively); any
other response (including a 409 without the header) has its body parsed
and returned.  The result is `(body, session id after the call, number
of resends)`. -/
def send (sessionId : Option String) : List HttpResponse → Option (JVal × Option String × Nat)
  | [] => none
  | r :: rest =>
    if r.status = 409 then
      match r.sessionHeader with
      | some sid =>
        match send (some sid) rest with
        | some (p, s, n) => some (p, s, n + 1)
        | none => none
      | none => some (r.payload, sessionId, 0)
    else some (r.payload, sessionId, 0)

/-- Session id state after processing a list of responses that each may
carry a new session header (the header, when present, replaces the
stored token). -/
def applyHeaders (st : Option String) (pre : List HttpResponse) : Option String :=
  pre.foldl (fun s r =>
    match r.sessionHeader with
    | some h => some h
    | none => s) st

/-!
Dialect logic: `TransmissionRpcClient.call` (src/rpcClient.ts).

The outcomes of the two network paths are modelled as oracles: for one
logical call with fixed method and params, `modern` is the outcome
`callJsonRpc` would produce and `legacy` the outcome `callLegacy` would
produce.  The daemon answer to a given request is modelled as
deterministic within a logical call, so a repeated legacy request
yields the same outcome.
-/

/-- Outcome of a network path: a returned value or a thrown error with
its message. -/
inductive CallResult where
  | ok (v : JVal)
  | err (msg : String)

/-- ASCII lower-casing of a string, modelling
`String.prototype.toLowerCase` on the ASCII strings involved. -/
def lowerStr (s : String) : String :=
  ⟨s.data.map Char.toLower⟩

/-- Does `pat` start `hay`? (character-wise). -/
def startsWithList : List Char → List Char → Bool
  | [], _ => true
  | _ :: _, [] => false
  | p :: ps, c :: cs => p == c && startsWithList ps cs

/-- Substring containment, modelling `String.prototype.includes`. -/
def containsSub (hay pat : List Char) : Bool :=
  match hay with
  | [] => pat.isEmpty
  | _ :: rest => startsWithList pat hay || containsSub rest pat

/-- Does the lower-cased text contain the phrase `"not recognized"`?
Models `s.toLowerCase().includes("not recognized")`. -/
def hasNotRecognized (s : String) : Bool :=
  containsSub (lowerStr s).data "not recognized".data

/-- Is the payload a bare string containing the dialect signal?  Models
`typeof result === "string" && result.toLowerCase().includes("not
recognized")`. -/
def isNotRecognizedResult : JVal → Bool
  | .vStr s => hasNotRecognized s
  | _ => false

/-- Model of `TransmissionRpcClient.call`.  If `preferLegacy` is
already set, go straight to the legacy path.  Otherwise try the modern
path inside a try/catch: a bare-string "not recognized" payload sets
the flag and redoes the call via the legacy path (still inside the
try); an error whose message contains the phrase is caught, sets the
flag, and redoes via the legacy path; any other error is rethrown.  An
error thrown by the in-try legacy redo is itself caught, and redone via
the legacy path once more when its message contains the phrase (the
deterministic oracle gives that second redo the same outcome).  Returns
the caller-visible outcome and the flag after the call. -/
def call (preferLegacy : Bool) (modern legacy : CallResult) : CallResult × Bool :=
  if preferLegacy then (legacy, preferLegacy)
  else
    match modern with
    | .ok v =>
      if isNotRecognizedResult v then
        match legacy with
        | .ok w => (.ok w, true)
        | .err m => if hasNotRecognized m then (legacy, true) else (.err m, true)
      else (.ok v, preferLegacy)
    | .err m =>
      if hasNotRecognized m then (legacy, true) else (.err m, preferLegacy)

/-- A sequence of logical calls on one client instance: each entry
gives the modern-path and legacy-path oracles for that call.  Returns
the caller-visible outcomes and the final flag. -/
def runCalls (preferLegacy : Bool) : List (CallResult × CallResult) → List CallResult × Bool
  | [] => ([], preferLegacy)
  | (m, l) :: rest =>
    let r := call preferLegacy m l
    let rs := runCalls r.2 rest
    (r.1 :: rs.1, rs.2)

/-!
Field-name translation: `toLegacyMethod`, `toLegacyParams`,
`snakeToCamel` (src/rpcClient.ts).
-/

/-- Character class `[a-z]` of the regex in `snakeToCamel`. -/
def isLowerAZ (c : Char) : Bool :=
  97 ≤ c.toNat && c.toNat ≤ 122

/-- Global replacement of `/_([a-z])/g` by the upper-cased captured
letter, scanning left to right over the characters.  This is
the body of `snakeToCamel`, that is `value.replace(/_([a-z])/g, (_, c) => c.toUpperCase())`,
at character level. -/
def snakeToCamelAux : List Char → List Char
  | [] => []
  | [c] => [c]
  | c :: d :: rest =>
    if c == '_' && isLowerAZ d then d.toUpper :: snakeToCamelAux rest
    else c :: snakeToCamelAux (d :: rest)

/-- Model of `TransmissionRpcClient.snakeToCamel`. -/
def snakeToCamel (s : String) : String :=
  ⟨snakeToCamelAux s.data⟩

/-- Model of the key rewrite in `toLegacyParams`:
`key.includes("_") ? key.replace(/_/g, "-") : key`. -/
def legacyKey (k : String) : String :=
  if '_' ∈ k.data then ⟨k.data.map (fun c => if c = '_' then '-' else c)⟩ else k

/-- Duplicate removal keeping first occurrences, with the already-seen
accumulator; models insertion into a JavaScript `Set`. -/
def dedupFirstAux [DecidableEq α] (seen : List α) : List α → List α
  | [] => []
  | x :: xs => if x ∈ seen then dedupFirstAux seen xs else x :: dedupFirstAux (x :: seen) xs

/-- Models `Array.from(new Set(l))`: the elements of `l` without
duplicates, in order of first occurrence. -/
def dedupFirst [DecidableEq α] (l : List α) : List α :=
  dedupFirstAux [] l

/-- The `fields` translation of `toLegacyParams`:
`Array.from(new Set([...value, ...value.map(snakeToCamel)]))`.  The
elements of a `fields` array are field-name strings. -/
def fieldsUnion (xs : List String) : List String :=
  dedupFirst (xs ++ xs.map snakeToCamel)

/-- A parameter value as seen by `toLegacyParams`: either an array (its
elements modelled as strings — the only array whose elements the
function inspects is the `fields` field-name list) or any non-array
value, passed through without inspection. -/
inductive PVal where
  | arr (xs : List String)
  | nonArr (v : JVal)

/-- Assignment `obj[k] = v` on an object built as an association list:
overwrite in place if the key exists, else append. -/
def objInsert (fs : List (String × PVal)) (k : String) (v : PVal) : List (String × PVal) :=
  if fs.any (fun p => p.1 = k) then fs.map (fun p => if p.1 = k then (k, v) else p)
  else fs ++ [(k, v)]

/-- One iteration of the `toLegacyParams` loop: skip an `undefined`
value, translate an array-valued `fields` entry via `fieldsUnion`, and
otherwise assign the value unchanged under the rewritten key. -/
def legacyParamStep (conv : List (String × PVal)) (kv : String × Option PVal) :
    List (String × PVal) :=
  match kv.2 with
  | none => conv
  | some v =>
    match v with
    | .arr xs =>
      if kv.1 = "fields" then objInsert conv "fields" (.arr (fieldsUnion xs))
      else objInsert conv (legacyKey kv.1) v
    | .nonArr _ => objInsert conv (legacyKey kv.1) v

/-- Model of `TransmissionRpcClient.toLegacyParams`: iterate over the
entries of the params record (keys pairwise distinct, `none` modelling
an `undefined` value), building the converted record. -/
def toLegacyParams (params : List (String × Option PVal)) : List (String × PVal) :=
  params.foldl legacyParamStep []

/-!
Legacy response interpretation: `TransmissionRpcClient.callLegacy`
(src/rpcClient.ts), after `send` has produced the parsed body.
-/

/-- Outcome of interpreting a legacy response body: a returned payload
or a thrown error carrying the offending `result` value. -/
inductive LegacyOutcome where
  | ok (v : JVal)
  | raise (v : JVal)

/-- The returned payload `json.arguments ?? json`. -/
def legacyPayload (json : JVal) : JVal :=
  match getF json "arguments" with
  | some .vNull => json
  | some a => a
  | none => json

/-- Model of the response interpretation in `callLegacy`:
`if (json.result && json.result !== "success") throw new
Error(json.result); return json.arguments ?? json`. -/
def interpretLegacyResponse (json : JVal) : LegacyOutcome :=
  match getF json "result" with
  | some r =>
    if truthy r && !(match r with | .vStr s => s == "success" | _ => false) then .raise r
    else .ok (legacyPayload json)
  | none => .ok (legacyPayload json)

/-!
Utilities (src/utils.ts) and constants (src/constants.ts).
-/

/-- The response size limit `CHARACTER_LIMIT` from src/constants.ts. -/
def CHARACTER_LIMIT : Nat := 25000

/-- Result record of `checkAndTruncate`. -/
structure TruncateResult where
  content : String
  truncated : Bool
  message : Option String

/-- The truncation notice appended to truncated content (the template
literal in `checkAndTruncate`, with `CHARACTER_LIMIT` and the
`itemType` argument spliced in). -/
def truncationNotice (itemType : String) : String :=
  "\n\n---\n**Response truncated** (exceeded " ++ toString CHARACTER_LIMIT ++
    " character limit). " ++
    "Try using pagination with \x27offset\x27 parameter or filtering to see more " ++
    itemType ++ "."

/-- Model of `checkAndTruncate`: content within the limit is returned
unchanged; longer content is cut to the first `CHARACTER_LIMIT`
characters and the truncation notice is appended. -/
def checkAndTruncate (content : String) (itemCount : Nat) (itemType : String) : TruncateResult :=
  if content.length ≤ CHARACTER_LIMIT then
    { content := content, truncated := false, message := none }
  else
    { content := ⟨content.data.take CHARACTER_LIMIT⟩ ++ truncationNotice itemType,
      truncated := true,
      message := some ("Response truncated from " ++ toString itemCount ++ " " ++ itemType) }

/-- A single torrent identifier: a number or a string (hash or special
selector). -/
inductive IdVal where
  | num (n : Int)
  | str (s : String)
deriving DecidableEq

/-- Input accepted by `normalizeTorrentIds`: a scalar identifier or an
array of identifiers. -/
inductive TorrentIdInput where
  | single (v : IdVal)
  | list (xs : List IdVal)
deriving DecidableEq

/-- Result of `normalizeTorrentIds`, mirroring its TypeScript return
type `Array<number | string> | string | undefined`. -/
inductive TorrentIdsOut where
  | undef
  | strOut (s : String)
  | arr (xs : List IdVal)
deriving DecidableEq

/-- The regex test `/^\d+$/.test(s)`: non-empty and all decimal
digits. -/
def isDigitOnly (s : String) : Bool :=
  !s.isEmpty && s.data.all Char.isDigit

/-- Value of `Number(s)` for a digit-only string (exact decimal value;
IEEE-754 rounding beyond 2^53 is outside the scope of the claims). -/
def digitsToNat (s : String) : Nat :=
  s.data.foldl (fun a c => a * 10 + (c.toNat - 48)) 0

/-- The element mapping of `normalizeTorrentIds` on array inputs. -/
def normalizeElem (v : IdVal) : IdVal :=
  if v = .str "recently_active" ∨ v = .str "recently-active" then .str "recently-active"
  else
    match v with
    | .str s => if isDigitOnly s then .num (digitsToNat s) else v
    | .num n => .num n

/-- Model of `normalizeTorrentIds` (src/utils.ts).  The scalar string
checks (`"all"`, the two recently-active spellings, digit-only) never
match an array, so matching on scalar versus array first is
equivalent to the check order of the source. -/
def normalizeTorrentIds : TorrentIdInput → TorrentIdsOut
  | .single v =>
    if v = .str "all" then .undef
    else if v = .str "recently_active" ∨ v = .str "recently-active" then
      .strOut "recently-active"
    else
      match v with
      | .str s => if isDigitOnly s then .arr [.num (digitsToNat s)] else .arr [.str s]
      | .num n => .arr [.num n]
  | .list xs => .arr (xs.map normalizeElem)

/-!
Response reconciliation (src/utils.ts): the attribute selectors at the
top of `formatStatsMarkdown` and `formatTorrentMarkdown`, and the field
reads inside the nested current/cumulative statistics blocks.  Each
selector is the exact `??`-chain of the source, written with `qq`
(left-associated, as `??` associates).
-/

/-- Selector `stats.active_torrent_count ?? stats.activeTorrentCount ?? 0`. -/
def statsActiveTorrentCount (o : JVal) : JVal :=
  (qq (qq (getF o "active_torrent_count") (getF o "activeTorrentCount")) (some (.vNum 0))).getD .vNull

/-- Selector `stats.paused_torrent_count ?? stats.pausedTorrentCount ?? 0`. -/
def statsPausedTorrentCount (o : JVal) : JVal :=
  (qq (qq (getF o "paused_torrent_count") (getF o "pausedTorrentCount")) (some (.vNum 0))).getD .vNull

/-- Selector `stats.torrent_count ?? stats.torrentCount ?? 0`. -/
def statsTorrentCount (o : JVal) : JVal :=
  (qq (qq (getF o "torrent_count") (getF o "torrentCount")) (some (.vNum 0))).getD .vNull

/-- Selector `stats.download_speed ?? stats.downloadSpeed ?? 0`. -/
def statsDownloadSpeed (o : JVal) : JVal :=
  (qq (qq (getF o "download_speed") (getF o "downloadSpeed")) (some (.vNum 0))).getD .vNull

/-- Selector `stats.upload_speed ?? stats.uploadSpeed ?? 0`. -/
def statsUploadSpeed (o : JVal) : JVal :=
  (qq (qq (getF o "upload_speed") (getF o "uploadSpeed")) (some (.vNum 0))).getD .vNull

/-- Selector `stats.current_stats ?? stats["current-stats"] ?? stats.currentStats`. -/
def statsCurrentStats (o : JVal) : Option JVal :=
  qq (qq (getF o "current_stats") (getF o "current-stats")) (getF o "currentStats")

/-- Selector `stats.cumulative_stats ?? stats["cumulative-stats"] ?? stats.cumulativeStats`. -/
def statsCumulativeStats (o : JVal) : Option JVal :=
  qq (qq (getF o "cumulative_stats") (getF o "cumulative-stats")) (getF o "cumulativeStats")

/-- Field read `block.downloaded_bytes ?? block.downloadedBytes` inside
the current/cumulative statistics blocks. -/
def blockDownloadedBytes (o : JVal) : Option JVal :=
  qq (getF o "downloaded_bytes") (getF o "downloadedBytes")

/-- Field read `block.uploaded_bytes ?? block.uploadedBytes`. -/
def blockUploadedBytes (o : JVal) : Option JVal :=
  qq (getF o "uploaded_bytes") (getF o "uploadedBytes")

/-- Field read `block.files_added ?? block.filesAdded`. -/
def blockFilesAdded (o : JVal) : Option JVal :=
  qq (getF o "files_added") (getF o "filesAdded")

/-- Field read `block.seconds_active ?? block.secondsActive`. -/
def blockSecondsActive (o : JVal) : Option JVal :=
  qq (getF o "seconds_active") (getF o "secondsActive")

/-- Field read `block.session_count ?? block.sessionCount`. -/
def blockSessionCount (o : JVal) : Option JVal :=
  qq (getF o "session_count") (getF o "sessionCount")

/-- Selector `torrent.percent_done ?? torrent.percentDone ??
torrent.percent_done ?? torrent.percentDone ?? 0` (the chain is
duplicated verbatim in the source). -/
def torrentPercentDone (o : JVal) : JVal :=
  (qq (qq (qq (qq (getF o "percent_done") (getF o "percentDone")) (getF o "percent_done"))
    (getF o "percentDone")) (some (.vNum 0))).getD .vNull

/-- Selector `torrent.size_when_done ?? torrent.sizeWhenDone ?? 0`. -/
def torrentSizeWhenDone (o : JVal) : JVal :=
  (qq (qq (getF o "size_when_done") (getF o "sizeWhenDone")) (some (.vNum 0))).getD .vNull

/-- Selector `torrent.downloaded_ever ?? torrent.downloadedEver ?? 0`. -/
def torrentDownloadedEver (o : JVal) : JVal :=
  (qq (qq (getF o "downloaded_ever") (getF o "downloadedEver")) (some (.vNum 0))).getD .vNull

/-- Selector `torrent.uploaded_ever ?? torrent.uploadedEver ?? 0`. -/
def torrentUploadedEver (o : JVal) : JVal :=
  (qq (qq (getF o "uploaded_ever") (getF o "uploadedEver")) (some (.vNum 0))).getD .vNull

/-- Selector `torrent.upload_ratio ?? torrent.uploadRatio ?? 0`. -/
def torrentUploadRatio (o : JVal) : JVal :=
  (qq (qq (getF o "upload_ratio") (getF o "uploadRatio")) (some (.vNum 0))).getD .vNull

/-- Selector `torrent.rate_download ?? torrent.rateDownload ?? 0`. -/
def torrentRateDownload (o : JVal) : JVal :=
  (qq (qq (getF o "rate_download") (getF o "rateDownload")) (some (.vNum 0))).getD .vNull

/-- Selector `torrent.rate_upload ?? torrent.rateUpload ?? 0`. -/
def torrentRateUpload (o : JVal) : JVal :=
  (qq (qq (getF o "rate_upload") (getF o "rateUpload")) (some (.vNum 0))).getD .vNull

/-- Selector `torrent.peers_connected ?? torrent.peersConnected ?? 0`. -/
def torrentPeersConnected (o : JVal) : JVal :=
  (qq (qq (getF o "peers_connected") (getF o "peersConnected")) (some (.vNum 0))).getD .vNull

/-- Selector `torrent.added_date ?? torrent.addedDate ?? 0`. -/
def torrentAddedDate (o : JVal) : JVal :=
  (qq (qq (getF o "added_date") (getF o "addedDate")) (some (.vNum 0))).getD .vNull

/-- Selector `torrent.done_date ?? torrent.doneDate ?? 0`. -/
def torrentDoneDate (o : JVal) : JVal :=
  (qq (qq (getF o "done_date") (getF o "doneDate")) (some (.vNum 0))).getD .vNull

/-- Selector `torrent.error_string ?? torrent.errorString` (no
default). -/
def torrentErrorString (o : JVal) : Option JVal :=
  qq (getF o "error_string") (getF o "errorString")

/-- Modelled from the wording of the spec: the reconciled value of an
attribute is the first non-absent value among its spellings in the
fixed priority order underscore form, then camelCase form, then
hyphenated form.  Used only to compare the order given by the spec against the
selectors of the source. -/
def specPriorityOrder (o : JVal) (uKey cKey hKey : String) : Option JVal :=
  qq (qq (getF o uKey) (getF o cKey)) (getF o hKey)

/-- Scan predicate for `snakeToCamel` proofs: no underscore in the
character list is immediately followed by a lowercase letter (such a
list is a fixed point of the rewrite). -/
def noUnderscoreLower : List Char → Bool
  | [] => true
  | [_] => true
  | c :: d :: rest => !(c == '_' && isLowerAZ d) && noUnderscoreLower (d :: rest)

/-!
Helper lemmas.
-/

/-- With the legacy flag set, a call is exactly the legacy outcome and
the flag stays set. -/
theorem call_flag_set (m l : CallResult) : call true m l = (l, true) := rfl

/-- Every call of a run started with the flag set yields its legacy
oracle, and the flag stays set. -/
theorem runCalls_flag_set (ps : List (CallResult × CallResult)) :
    runCalls true ps = (ps.map Prod.snd, true) := by
  induction ps with
  | nil => rfl
  | cons p rest ih => cases p; simp [runCalls, call_flag_set, ih]

/-- Once a run has set the flag, appended calls all take the legacy
path and the flag never reverts. -/
theorem runCalls_sticky (s : Bool) (ps qs : List (CallResult × CallResult))
    (h : (runCalls s ps).2 = true) :
    runCalls s (ps ++ qs) = ((runCalls s ps).1 ++ qs.map Prod.snd, true) := by
  induction ps generalizing s with
  | nil =>
    simp only [runCalls] at h
    subst h
    simp [runCalls, runCalls_flag_set]
  | cons p rest ih =>
    cases p
    simp only [runCalls, List.cons_append, List.append_eq] at h ⊢
    rw [ih _ h]

/-!
Claim C1 — stale-session resend.
-/

/-- Claim C1 counterexample: the claim says a logical call is never
resent more than once (a second 409 on the resend being a hard
failure), but on the scripted daemon answering 409-with-new-token
twice and then 200, `send` resends twice and succeeds with the third
body of that response. -/
theorem c1_counterexample :
    send none [⟨409, some "a", .vNull⟩, ⟨409, some "b", .vNull⟩, ⟨200, none, .vStr "done"⟩]
      = some (.vStr "done", some "b", 2) ∧ ¬(2 ≤ 1) :=
  ⟨rfl, by decide⟩

/-- Claim C1 (amended): on every 409 response carrying a new session id
header the client stores the token and resends; this repeats, without
any bound, for each consecutive such response, and the first response
that is not a 409-with-new-token is accepted and its body parsed (a 409
without the header is not resent and is not a distinguished hard
failure). -/
theorem c1_send_resends_per_409 (pre : List HttpResponse) (st : Option String)
    (r : HttpResponse) (rest : List HttpResponse)
    (hpre : ∀ x ∈ pre, x.status = 409 ∧ x.sessionHeader.isSome = true)
    (hr : r.status = 409 → r.sessionHeader = none) :
    send st (pre ++ r :: rest) = some (r.payload, applyHeaders st pre, pre.length) := by
  induction pre generalizing st with
  | nil =>
    simp only [List.nil_append, applyHeaders, List.foldl_nil, List.length_nil]
    by_cases h9 : r.status = 409
    · simp [send, h9, hr h9]
    · simp [send, h9]
  | cons x pre ih =>
    obtain ⟨hx9, hxs⟩ := hpre x (by simp)
    obtain ⟨h, hh⟩ := Option.isSome_iff_exists.mp hxs
    simp only [List.cons_append, send, hx9, if_true, hh, applyHeaders, List.foldl_cons,
      List.length_cons, List.append_eq]
    rw [ih (some h) (fun y hy => hpre y (List.mem_cons_of_mem _ hy))]
    simp [applyHeaders, hh]

/-- Witness for the amended claim C1 at a concrete script with two
consecutive 409 responses. -/
theorem c1_send_resends_witness :
    (∀ x ∈ ([⟨409, some "a", .vNull⟩, ⟨409, some "b", .vNull⟩] : List HttpResponse),
        x.status = 409 ∧ x.sessionHeader.isSome = true)
  ∧ ((⟨200, none, .vStr "ok2"⟩ : HttpResponse).status = 409 →
        (⟨200, none, JVal.vStr "ok2"⟩ : HttpResponse).sessionHeader = none)
  ∧ send none ([⟨409, some "a", .vNull⟩, ⟨409, some "b", .vNull⟩] ++ [⟨200, none, .vStr "ok2"⟩])
      = some (.vStr "ok2", some "b", 2) := by
  refine ⟨?_, ?_, ?_⟩
  · intro x hx
    simp only [List.mem_cons, List.not_mem_nil, or_false] at hx
    rcases hx with rfl | rfl <;> exact ⟨rfl, rfl⟩
  · intro h; cases h
  · exact (c1_send_resends_per_409
      [⟨409, some "a", .vNull⟩, ⟨409, some "b", .vNull⟩] none ⟨200, none, .vStr "ok2"⟩ []
      (by
        intro x hx
        simp only [List.mem_cons, List.not_mem_nil, or_false] at hx
        rcases hx with rfl | rfl <;> exact ⟨rfl, rfl⟩)
      (by intro h; cases h)).trans rfl

/-!
Claim C2 — the dialect preference is one-way and sticky.
-/

/-- Claim C2: once the legacy-confirmed flag is set, every call on the
instance goes straight to the legacy path — the outcome is the legacy
oracle regardless of the modern oracle — and the flag remains set for
the rest of the instance lifetime, including across any further
sequence of calls. -/
theorem c2_prefer_legacy_one_way :
    (∀ m l, call true m l = (l, true))
  ∧ (∀ ps, runCalls true ps = (ps.map Prod.snd, true))
  ∧ (∀ s ps qs, (runCalls s ps).2 = true →
      runCalls s (ps ++ qs) = ((runCalls s ps).1 ++ qs.map Prod.snd, true)) :=
  ⟨call_flag_set, runCalls_flag_set, fun s ps qs h => runCalls_sticky s ps qs h⟩

/-- Witness for claim C2: a scripted first call whose modern path fails
with "method name not recognized" sets the flag, and the appended
second call (a different oracle pair) takes the legacy path. -/
theorem c2_prefer_legacy_witness :
    ((runCalls false [(.err "method name not recognized", .ok (.vNum 1))]).2 = true)
  ∧ runCalls false
        ([(.err "method name not recognized", .ok (.vNum 1))]
          ++ [(.ok (.vNum 9), .ok (.vNum 2))])
      = ((runCalls false [(.err "method name not recognized", .ok (.vNum 1))]).1
          ++ [(CallResult.ok (.vNum 9), CallResult.ok (.vNum 2))].map Prod.snd, true) :=
  ⟨rfl, c2_prefer_legacy_one_way.2.2 false
    [(.err "method name not recognized", .ok (.vNum 1))]
    [(.ok (.vNum 9), .ok (.vNum 2))] rfl⟩

/-!
Claim C3 — the "method not recognized" signal is absorbed.
-/

/-- Claim C3: when the modern path returns a bare string containing the
"not recognized" phrase, or throws an error whose message contains it,
the call sets the legacy-confirmed flag and the caller observes exactly
the outcome of the legacy redo — the signal itself never surfaces as a
failure. -/
theorem c3_dialect_signal_absorbed :
    (∀ s l, hasNotRecognized s = true → call false (.ok (.vStr s)) l = (l, true))
  ∧ (∀ m l, hasNotRecognized m = true → call false (.err m) l = (l, true)) := by
  constructor
  · intro s l h
    cases l with
    | ok w => simp [call, isNotRecognizedResult, h]
    | err m' =>
      by_cases hm : hasNotRecognized m' <;>
        simp [call, isNotRecognizedResult, h, hm]
  · intro m l h
    simp [call, h]

/-- Witness for claim C3 at concrete oracles: the caller observes the
value of the legacy redo, both for a bare-string signal and for a thrown
signal. -/
theorem c3_dialect_signal_witness :
    (hasNotRecognized "method name not recognized" = true)
  ∧ call false (.ok (.vStr "method name not recognized")) (.ok (.vNum 42))
      = (.ok (.vNum 42), true)
  ∧ call false (.err "Method torrent_get not recognized") (.err "no such torrent")
      = (.err "no such torrent", true) :=
  ⟨rfl,
   c3_dialect_signal_absorbed.1 "method name not recognized" (.ok (.vNum 42)) rfl,
   c3_dialect_signal_absorbed.2 "Method torrent_get not recognized" (.err "no such torrent") rfl⟩

/-!
Claims C4 and C10 — `normalizeTorrentIds`.
-/

/-- Claim C4: the exact mapping of `normalizeTorrentIds` over every
accepted identifier input — `"all"` to the absent selector, both
recently-active spellings to the hyphenated literal, a digit-only
string to the one-element numeric array, arrays elementwise (digit-only
strings to numbers, recently-active spellings to the hyphenated
literal, everything else unchanged), and any other scalar wrapped in a
one-element array. -/
theorem c4_normalize_torrent_ids_mapping :
    (normalizeTorrentIds (.single (.str "all")) = .undef)
  ∧ (normalizeTorrentIds (.single (.str "recently_active")) = .strOut "recently-active")
  ∧ (normalizeTorrentIds (.single (.str "recently-active")) = .strOut "recently-active")
  ∧ (∀ s, isDigitOnly s = true →
      normalizeTorrentIds (.single (.str s)) = .arr [.num (digitsToNat s)])
  ∧ (∀ xs, normalizeTorrentIds (.list xs) = .arr (xs.map normalizeElem))
  ∧ (∀ s, isDigitOnly s = true → normalizeElem (.str s) = .num (digitsToNat s))
  ∧ (normalizeElem (.str "recently_active") = .str "recently-active")
  ∧ (normalizeElem (.str "recently-active") = .str "recently-active")
  ∧ (∀ s, s ≠ "recently_active" → s ≠ "recently-active" → isDigitOnly s = false →
      normalizeElem (.str s) = .str s)
  ∧ (∀ n, normalizeElem (.num n) = .num n)
  ∧ (∀ s, s ≠ "all" → s ≠ "recently_active" → s ≠ "recently-active" → isDigitOnly s = false →
      normalizeTorrentIds (.single (.str s)) = .arr [.str s])
  ∧ (∀ n, normalizeTorrentIds (.single (.num n)) = .arr [.num n]) := by
  refine ⟨rfl, rfl, rfl, ?_, fun xs => rfl, ?_, rfl, rfl, ?_, ?_, ?_, ?_⟩
  · intro s h
    have hall : ¬(IdVal.str s = .str "all") := by
      intro e; injection e with e'; subst e'; exact absurd h (by decide)
    have hra : ¬(IdVal.str s = .str "recently_active" ∨ IdVal.str s = .str "recently-active") := by
      rintro (e | e) <;> (injection e with e'; subst e'; exact absurd h (by decide))
    simp only [normalizeTorrentIds]
    rw [if_neg hall, if_neg hra]
    simp [h]
  · intro s h
    have hra : ¬(IdVal.str s = .str "recently_active" ∨ IdVal.str s = .str "recently-active") := by
      rintro (e | e) <;> (injection e with e'; subst e'; exact absurd h (by decide))
    simp only [normalizeElem]
    rw [if_neg hra]
    simp [h]
  · intro s h1 h2 h3
    have hra : ¬(IdVal.str s = .str "recently_active" ∨ IdVal.str s = .str "recently-active") := by
      rintro (e | e) <;> (injection e with e'; subst e'; simp at h1 h2)
    simp only [normalizeElem]
    rw [if_neg hra]
    simp [h3]
  · intro n
    simp [normalizeElem]
  · intro s h1 h2 h3 h4
    have hall : ¬(IdVal.str s = .str "all") := by
      intro e; injection e with e'; exact h1 e'
    have hra : ¬(IdVal.str s = .str "recently_active" ∨ IdVal.str s = .str "recently-active") := by
      rintro (e | e) <;> (injection e with e'; first | exact h2 e' | exact h3 e')
    simp only [normalizeTorrentIds]
    rw [if_neg hall, if_neg hra]
    simp [h4]
  · intro n
    simp [normalizeTorrentIds]

/-- Witness for claim C4 at concrete inputs of each kind. -/
theorem c4_normalize_witness :
    (isDigitOnly "42" = true)
  ∧ normalizeTorrentIds (.single (.str "42")) = .arr [.num 42]
  ∧ normalizeTorrentIds (.list [.str "1", .str "abc", .num 2, .str "recently_active"])
      = .arr [.num 1, .str "abc", .num 2, .str "recently-active"]
  ∧ (isDigitOnly "abcd1234" = false)
  ∧ normalizeTorrentIds (.single (.str "abcd1234")) = .arr [.str "abcd1234"] := by
  refine ⟨rfl, ?_, ?_, rfl, ?_⟩
  · exact (c4_normalize_torrent_ids_mapping.2.2.2.1 "42" rfl).trans (by decide)
  · exact (c4_normalize_torrent_ids_mapping.2.2.2.2.1
      [.str "1", .str "abc", .num 2, .str "recently_active"]).trans (by decide)
  · exact c4_normalize_torrent_ids_mapping.2.2.2.2.2.2.2.2.2.2.1 "abcd1234"
      (by decide) (by decide) (by decide) rfl

/-- Claim C10: the empty identifier array maps to an explicit empty
array (an empty wire `ids` parameter), not to the absent-ids "all"
selector. -/
theorem c10_normalize_empty_array :
    normalizeTorrentIds (.list []) = .arr [] ∧ TorrentIdsOut.arr [] ≠ .undef :=
  ⟨rfl, by decide⟩

/-!
Claim C9 — `checkAndTruncate`.
-/

/-- Claim C9: content of at most `CHARACTER_LIMIT` characters is
returned unchanged and unflagged; longer content is returned as exactly
its first `CHARACTER_LIMIT` characters followed by the truncation
notice, flagged as truncated, so the content portion never exceeds the
limit. -/
theorem c9_check_and_truncate (content : String) (itemCount : Nat) (itemType : String) :
    (content.length ≤ CHARACTER_LIMIT →
      checkAndTruncate content itemCount itemType
        = { content := content, truncated := false, message := none })
  ∧ (CHARACTER_LIMIT < content.length →
      checkAndTruncate content itemCount itemType
        = { content := (⟨content.data.take CHARACTER_LIMIT⟩ : String) ++ truncationNotice itemType,
            truncated := true,
            message := some ("Response truncated from " ++ toString itemCount ++ " " ++ itemType) }
      ∧ (⟨content.data.take CHARACTER_LIMIT⟩ : String).length = CHARACTER_LIMIT) := by
  constructor
  · intro h
    simp [checkAndTruncate, h]
  · intro h
    refine ⟨by simp [checkAndTruncate, Nat.not_le.mpr h], ?_⟩
    show (content.data.take CHARACTER_LIMIT).length = CHARACTER_LIMIT
    rw [List.length_take]
    have : CHARACTER_LIMIT < content.data.length := h
    omega

/-- Witness for claim C9: a 25001-character string is truncated to
exactly 25000 characters plus the notice, and a short string passes
through unchanged. -/
theorem c9_check_and_truncate_witness :
    (CHARACTER_LIMIT < (String.mk (List.replicate 25001 'a')).length)
  ∧ (checkAndTruncate ⟨List.replicate 25001 'a'⟩ 7 "torrents"
        = { content :=
              (⟨(List.replicate 25001 'a').take CHARACTER_LIMIT⟩ : String)
                ++ truncationNotice "torrents",
            truncated := true,
            message := some ("Response truncated from " ++ toString 7 ++ " " ++ "torrents") }
      ∧ (⟨(List.replicate 25001 'a').take CHARACTER_LIMIT⟩ : String).length = CHARACTER_LIMIT)
  ∧ (("hi" : String).length ≤ CHARACTER_LIMIT)
  ∧ checkAndTruncate "hi" 1 "items" = { content := "hi", truncated := false, message := none } := by
  have hlen : CHARACTER_LIMIT < (String.mk (List.replicate 25001 'a')).length := by
    show CHARACTER_LIMIT < (List.replicate 25001 'a').length
    rw [List.length_replicate]
    decide
  refine ⟨hlen, ?_, by decide, ?_⟩
  · exact (c9_check_and_truncate ⟨List.replicate 25001 'a'⟩ 7 "torrents").2 hlen
  · exact (c9_check_and_truncate "hi" 1 "items").1 (by decide)

/-!
Claim C8 — legacy response interpretation.
-/

/-- Claim C8 counterexample: a legacy response with `result: ""` — a
value other than the literal `"success"` — is not raised as an error;
the falsy empty string passes the truthiness guard and the `arguments`
payload is returned. -/
theorem c8_counterexample :
    interpretLegacyResponse (.vObj [("result", .vStr ""), ("arguments", .vStr "A")])
      = .ok (.vStr "A")
  ∧ ("" : String) ≠ "success" :=
  ⟨rfl, by decide⟩

/-- Claim C8 (amended): the legacy path raises the `result` value as an
error exactly when it is present, truthy, and not the literal
`"success"`; a falsy result (absent, empty string, `false`, `0`,
`null`) is treated as success; on success the `arguments` sub-object is
returned, or the whole parsed body when `arguments` is absent (or
`null`). -/
theorem c8_legacy_result_interpretation :
    (∀ json r, getF json "result" = some r → truthy r = true →
        (∀ s, r = .vStr s → s ≠ "success") →
        interpretLegacyResponse json = .raise r)
  ∧ (∀ json r, getF json "result" = some r → truthy r = false →
        interpretLegacyResponse json = .ok (legacyPayload json))
  ∧ (∀ json, getF json "result" = none →
        interpretLegacyResponse json = .ok (legacyPayload json))
  ∧ (∀ json, getF json "result" = some (.vStr "success") →
        interpretLegacyResponse json = .ok (legacyPayload json))
  ∧ (∀ json a, getF json "arguments" = some a → a ≠ .vNull → legacyPayload json = a)
  ∧ (∀ json, getF json "arguments" = none → legacyPayload json = json) := by
  refine ⟨?_, ?_, ?_, ?_, ?_, ?_⟩
  · intro json r hres htr hns
    cases r with
    | vStr s =>
      have hne : s ≠ "success" := hns s rfl
      simp [interpretLegacyResponse, hres, htr, hne]
    | vNull => simp [truthy] at htr
    | vBool b => simp [interpretLegacyResponse, hres, htr]
    | vNum n => simp [interpretLegacyResponse, hres, htr]
    | vArr xs => simp [interpretLegacyResponse, hres, htr]
    | vObj fs => simp [interpretLegacyResponse, hres, htr]
  · intro json r hres htr
    simp [interpretLegacyResponse, hres, htr]
  · intro json hres
    simp only [interpretLegacyResponse, hres]
  · intro json hres
    simp [interpretLegacyResponse, hres]
  · intro json a ha hnn
    cases a with
    | vNull => exact absurd rfl hnn
    | vBool b => simp only [legacyPayload, ha]
    | vNum n => simp only [legacyPayload, ha]
    | vStr s => simp only [legacyPayload, ha]
    | vArr xs => simp only [legacyPayload, ha]
    | vObj fs => simp only [legacyPayload, ha]
  · intro json ha
    simp only [legacyPayload, ha]

/-- Witness for the amended claim C8: a truthy non-"success" result is
raised, and a "success" response returns its `arguments`. -/
theorem c8_legacy_result_witness :
    (getF (.vObj [("result", .vStr "torrent not found")]) "result"
        = some (.vStr "torrent not found"))
  ∧ (truthy (.vStr "torrent not found") = true)
  ∧ interpretLegacyResponse (.vObj [("result", .vStr "torrent not found")])
      = .raise (.vStr "torrent not found")
  ∧ interpretLegacyResponse (.vObj [("result", .vStr "success"), ("arguments", .vNum 5)])
      = .ok (.vNum 5) := by
  refine ⟨rfl, rfl, ?_, ?_⟩
  · exact c8_legacy_result_interpretation.1 _ _ rfl rfl
      (fun s hs => by injection hs with h'; subst h'; decide)
  · exact (c8_legacy_result_interpretation.2.2.2.1
      (.vObj [("result", .vStr "success"), ("arguments", .vNum 5)]) rfl).trans rfl

/-!
Character-level lemmas for `snakeToCamel`.
-/

/-- Value of `Char.ofNat` at a valid code point. -/
theorem charOfNat_toNat (n : Nat) (h : n.isValidChar) : (Char.ofNat n).toNat = n := by
  simp [Char.ofNat, h, Char.ofNatAux, Char.toNat, UInt32.toNat]

/-- Upper-casing a lowercase ASCII letter subtracts 32 from its code
point. -/
theorem toUpper_toNat_of_lower (c : Char) (h : isLowerAZ c = true) :
    c.toUpper.toNat = c.toNat - 32 := by
  have h' : 97 ≤ c.toNat ∧ c.toNat ≤ 122 := by
    simpa [isLowerAZ, Bool.and_eq_true] using h
  rw [Char.toUpper]
  rw [if_pos ⟨h'.1, h'.2⟩]
  exact charOfNat_toNat _ (Or.inl (by omega))

/-- The upper-cased form of a lowercase ASCII letter is not an
underscore. -/
theorem toUpper_ne_underscore (c : Char) (h : isLowerAZ c = true) :
    (c.toUpper == '_') = false := by
  have h1 := toUpper_toNat_of_lower c h
  have h' : 97 ≤ c.toNat ∧ c.toNat ≤ 122 := by
    simpa [isLowerAZ, Bool.and_eq_true] using h
  rw [beq_eq_false_iff_ne]
  intro he
  rw [he] at h1
  have h95 : ('_').toNat = 95 := rfl
  omega

/-- The upper-cased form of a lowercase ASCII letter is not itself a
lowercase ASCII letter. -/
theorem toUpper_not_lower (c : Char) (h : isLowerAZ c = true) :
    isLowerAZ c.toUpper = false := by
  have h1 := toUpper_toNat_of_lower c h
  have h' : 97 ≤ c.toNat ∧ c.toNat ≤ 122 := by
    simpa [isLowerAZ, Bool.and_eq_true] using h
  simp only [isLowerAZ, h1, Bool.and_eq_false_iff]
  left
  simp only [decide_eq_false_iff_not]
  omega

/-- Prepending a non-underscore character preserves the scan
predicate. -/
theorem noUnderscoreLower_cons_ne (c : Char) (l : List Char) (h : (c == '_') = false) :
    noUnderscoreLower (c :: l) = noUnderscoreLower l := by
  cases l with
  | nil => rfl
  | cons d rest => simp [noUnderscoreLower, h]

/-- Prepending any character before a non-lowercase head preserves the
scan predicate. -/
theorem noUnderscoreLower_cons_head (c d : Char) (rest : List Char)
    (h : isLowerAZ d = false) :
    noUnderscoreLower (c :: d :: rest) = noUnderscoreLower (d :: rest) := by
  simp [noUnderscoreLower, h]

/-- The rewrite output of a list with a non-lowercase head is nonempty
with a non-lowercase head. -/
theorem snakeToCamelAux_head (d : Char) (rest : List Char) (h : isLowerAZ d = false) :
    ∃ x tail, snakeToCamelAux (d :: rest) = x :: tail ∧ isLowerAZ x = false := by
  cases rest with
  | nil => exact ⟨d, [], rfl, h⟩
  | cons e rest2 =>
    by_cases hc : (d == '_' && isLowerAZ e) = true
    · have hl : isLowerAZ e = true := by
        cases hld : isLowerAZ e
        · simp [hld] at hc
        · rfl
      refine ⟨e.toUpper, snakeToCamelAux rest2, ?_, toUpper_not_lower e hl⟩
      simp [snakeToCamelAux, hc]
    · refine ⟨d, snakeToCamelAux (e :: rest2), ?_, h⟩
      simp only [snakeToCamelAux, if_neg hc]

/-- The output of the `snakeToCamel` rewrite never has an underscore
immediately followed by a lowercase letter. -/
theorem noUnderscoreLower_snakeToCamelAux : ∀ l, noUnderscoreLower (snakeToCamelAux l) = true
  | [] => rfl
  | [_] => rfl
  | c :: d :: rest => by
    by_cases hc : (c == '_' && isLowerAZ d) = true
    · have hl : isLowerAZ d = true := by
        cases hld : isLowerAZ d
        · simp [hld] at hc
        · rfl
      rw [show snakeToCamelAux (c :: d :: rest) = d.toUpper :: snakeToCamelAux rest from by
        simp [snakeToCamelAux, hc]]
      rw [noUnderscoreLower_cons_ne _ _ (toUpper_ne_underscore d hl)]
      exact noUnderscoreLower_snakeToCamelAux rest
    · rw [show snakeToCamelAux (c :: d :: rest) = c :: snakeToCamelAux (d :: rest) from by
        simp only [snakeToCamelAux, if_neg hc]]
      by_cases hc2 : (c == '_') = true
      · have hd : isLowerAZ d = false := by
          cases hld : isLowerAZ d
          · rfl
          · exact absurd (by rw [Bool.and_eq_true]; exact ⟨hc2, hld⟩) hc
        obtain ⟨x, tail, hx, hxl⟩ := snakeToCamelAux_head d rest hd
        rw [hx, noUnderscoreLower_cons_head c x tail hxl, ← hx]
        exact noUnderscoreLower_snakeToCamelAux (d :: rest)
      · have hf : (c == '_') = false := by
          cases hb : (c == '_')
          · rfl
          · exact absurd hb hc2
        rw [noUnderscoreLower_cons_ne _ _ hf]
        exact noUnderscoreLower_snakeToCamelAux (d :: rest)

/-- A list already satisfying the scan predicate is a fixed point of
the `snakeToCamel` rewrite. -/
theorem snakeToCamelAux_fixed : ∀ l, noUnderscoreLower l = true → snakeToCamelAux l = l
  | [], _ => rfl
  | [_], _ => rfl
  | c :: d :: rest, h => by
    simp only [noUnderscoreLower, Bool.and_eq_true, Bool.not_eq_true'] at h
    obtain ⟨hc, hrest⟩ := h
    simp [snakeToCamelAux, hc, snakeToCamelAux_fixed (d :: rest) hrest]

/-- The `snakeToCamel` rewrite is idempotent at character level. -/
theorem snakeToCamelAux_idem (l : List Char) :
    snakeToCamelAux (snakeToCamelAux l) = snakeToCamelAux l :=
  snakeToCamelAux_fixed _ (noUnderscoreLower_snakeToCamelAux l)

/-- `snakeToCamel` is idempotent. -/
theorem snakeToCamel_idem (s : String) : snakeToCamel (snakeToCamel s) = snakeToCamel s :=
  congrArg String.mk (snakeToCamelAux_idem s.data)

/-!
Lemmas on `dedupFirst` (JavaScript `Set` insertion order).
-/

/-- Membership in the deduplication with accumulator. -/
theorem mem_dedupFirstAux {α : Type} [DecidableEq α] (l : List α) :
    ∀ (seen : List α) (a : α), a ∈ dedupFirstAux seen l ↔ (a ∈ l ∧ a ∉ seen) := by
  induction l with
  | nil => intro seen a; simp [dedupFirstAux]
  | cons x xs ih =>
    intro seen a
    by_cases hx : x ∈ seen
    · simp only [dedupFirstAux, if_pos hx, ih, List.mem_cons]
      constructor
      · rintro ⟨h1, h2⟩; exact ⟨Or.inr h1, h2⟩
      · rintro ⟨h1 | h1, h2⟩
        · exact absurd (h1 ▸ hx) h2
        · exact ⟨h1, h2⟩
    · simp only [dedupFirstAux, if_neg hx, List.mem_cons, ih]
      constructor
      · rintro (rfl | ⟨h1, h2⟩)
        · exact ⟨Or.inl rfl, hx⟩
        · exact ⟨Or.inr h1, fun hs => h2 (Or.inr hs)⟩
      · rintro ⟨rfl | h1, h2⟩
        · exact Or.inl rfl
        · by_cases hax : a = x
          · exact Or.inl hax
          · exact Or.inr ⟨h1, by simp [hax, h2]⟩

/-- The deduplication never repeats an element. -/
theorem nodup_dedupFirstAux {α : Type} [DecidableEq α] (l : List α) :
    ∀ seen : List α, (dedupFirstAux seen l).Nodup := by
  induction l with
  | nil => intro seen; simp [dedupFirstAux]
  | cons x xs ih =>
    intro seen
    by_cases hx : x ∈ seen
    · simpa [dedupFirstAux, if_pos hx] using ih seen
    · simp only [dedupFirstAux, if_neg hx, List.nodup_cons]
      refine ⟨fun hmem => ?_, ih (x :: seen)⟩
      exact ((mem_dedupFirstAux xs (x :: seen) x).mp hmem).2 (List.mem_cons_self x seen)

/-- The deduplication is a sublist of the input (order of first
occurrences). -/
theorem sublist_dedupFirstAux {α : Type} [DecidableEq α] (l : List α) :
    ∀ seen : List α, List.Sublist (dedupFirstAux seen l) l := by
  induction l with
  | nil => intro seen; simp [dedupFirstAux]
  | cons x xs ih =>
    intro seen
    by_cases hx : x ∈ seen
    · rw [dedupFirstAux, if_pos hx]
      exact (ih seen).trans (List.sublist_cons_self x xs)
    · rw [dedupFirstAux, if_neg hx]
      exact (ih (x :: seen)).cons₂ x

/-- Elements all already seen are dropped entirely. -/
theorem dedupFirstAux_eq_nil {α : Type} [DecidableEq α] (l : List α) :
    ∀ seen : List α, (∀ a ∈ l, a ∈ seen) → dedupFirstAux seen l = [] := by
  induction l with
  | nil => intro seen _; rfl
  | cons x xs ih =>
    intro seen h
    rw [dedupFirstAux, if_pos (h x (List.mem_cons_self x xs))]
    exact ih seen fun a ha => h a (List.mem_cons_of_mem _ ha)

/-- Deduplicating a duplicate-free list followed by elements it already
contains returns the list itself. -/
theorem dedupFirstAux_append_absorb {α : Type} [DecidableEq α] (l1 : List α) :
    ∀ (l2 seen : List α), l1.Nodup → (∀ a ∈ l1, a ∉ seen) →
      (∀ a ∈ l2, a ∈ l1 ∨ a ∈ seen) → dedupFirstAux seen (l1 ++ l2) = l1 := by
  induction l1 with
  | nil =>
    intro l2 seen _ _ h2
    exact dedupFirstAux_eq_nil l2 seen fun a ha => ((h2 a ha).resolve_left (by simp))
  | cons x xs ih =>
    intro l2 seen hnd hsn h2
    rw [List.cons_append, dedupFirstAux, if_neg (hsn x (List.mem_cons_self x xs))]
    congr 1
    refine ih l2 (x :: seen) (List.nodup_cons.mp hnd).2 ?_ ?_
    · intro a ha
      simp only [List.mem_cons, not_or]
      exact ⟨fun he => (List.nodup_cons.mp hnd).1 (he ▸ ha), hsn a (List.mem_cons_of_mem _ ha)⟩
    · intro a ha
      rcases h2 a ha with h | h
      · rcases List.mem_cons.mp h with rfl | h
        · exact Or.inr (List.mem_cons_self a seen)
        · exact Or.inl h
      · exact Or.inr (List.mem_cons_of_mem _ h)

/-!
Lemmas on `legacyKey`, `objInsert`, and the `toLegacyParams` loop.
-/

/-- Mapping underscores to hyphens is the identity on underscore-free
lists. -/
theorem map_underscore_id (l : List Char) (h : '_' ∉ l) :
    l.map (fun c => if c = '_' then '-' else c) = l := by
  induction l with
  | nil => rfl
  | cons c rest ih =>
    simp only [List.mem_cons, not_or] at h
    simp only [List.map_cons, if_neg (Ne.symm h.1), ih h.2]

/-- The key rewrite always equals the plain character map (the guard
only skips a no-op). -/
theorem legacyKey_eq_map (k : String) :
    legacyKey k = ⟨k.data.map (fun c => if c = '_' then '-' else c)⟩ := by
  by_cases h : '_' ∈ k.data
  · simp [legacyKey, h]
  · rw [legacyKey, if_neg h, map_underscore_id k.data h]

/-- Keys without an underscore are preserved byte-for-byte. -/
theorem legacyKey_of_no_underscore (k : String) (h : '_' ∉ k.data) : legacyKey k = k := by
  simp [legacyKey, h]

/-- The underscore-to-hyphen character map is injective away from
hyphens. -/
theorem underscoreMapChar_inj (a b : Char) (ha : a ≠ '-') (hb : b ≠ '-')
    (he : (if a = '_' then '-' else a) = (if b = '_' then '-' else b)) : a = b := by
  by_cases h1 : a = '_' <;> by_cases h2 : b = '_'
  · rw [h1, h2]
  · rw [if_pos h1, if_neg h2] at he
    exact absurd he.symm hb
  · rw [if_neg h1, if_pos h2] at he
    exact absurd he ha
  · rwa [if_neg h1, if_neg h2] at he

/-- The underscore-to-hyphen list map is injective on hyphen-free
lists. -/
theorem underscoreMapList_inj : ∀ (l1 l2 : List Char), '-' ∉ l1 → '-' ∉ l2 →
    l1.map (fun c => if c = '_' then '-' else c)
      = l2.map (fun c => if c = '_' then '-' else c) → l1 = l2
  | [], [], _, _, _ => rfl
  | [], _ :: _, _, _, h => by simp at h
  | _ :: _, [], _, _, h => by simp at h
  | a :: l1, b :: l2, h1, h2, he => by
    simp only [List.map_cons, List.cons.injEq] at he
    simp only [List.mem_cons, not_or] at h1 h2
    rw [underscoreMapChar_inj a b (fun h => h1.1 h.symm) (fun h => h2.1 h.symm) he.1,
      underscoreMapList_inj l1 l2 h1.2 h2.2 he.2]

/-- On hyphen-free keys the key rewrite is injective. -/
theorem legacyKey_inj (k1 k2 : String) (h1 : '-' ∉ k1.data) (h2 : '-' ∉ k2.data)
    (he : legacyKey k1 = legacyKey k2) : k1 = k2 := by
  rw [legacyKey_eq_map, legacyKey_eq_map] at he
  have hd := congrArg String.data he
  have hdata : k1.data = k2.data := underscoreMapList_inj _ _ h1 h2 hd
  cases k1
  cases k2
  exact congrArg String.mk hdata

/-- Assignment of a fresh key appends the binding. -/
theorem objInsert_fresh (fs : List (String × PVal)) (k : String) (v : PVal)
    (h : ∀ p ∈ fs, p.1 ≠ k) : objInsert fs k v = fs ++ [(k, v)] := by
  rw [objInsert, if_neg]
  simp only [List.any_eq_true, not_exists, not_and]
  intro p hp
  simp [h p hp]

/-- The `toLegacyParams` loop, run from any accumulator whose keys are
disjoint from the incoming rewritten keys: it appends, in order, one
binding per retained (non-`undefined`) entry. -/
theorem legacyParamStep_foldl (params : List (String × Option PVal)) :
    ∀ conv : List (String × PVal),
      (∀ kv ∈ params, kv.1 ≠ "fields") →
      (params.map (fun kv => legacyKey kv.1)).Nodup →
      (∀ kv ∈ params, ∀ p ∈ conv, p.1 ≠ legacyKey kv.1) →
      params.foldl legacyParamStep conv
        = conv ++ params.filterMap (fun kv => kv.2.map (fun v => (legacyKey kv.1, v))) := by
  induction params with
  | nil => intro conv _ _ _; simp
  | cons kv rest ih =>
    intro conv hf himg hconv
    obtain ⟨k, ov⟩ := kv
    rw [List.map_cons] at himg
    have himg2 := List.nodup_cons.mp himg
    cases ov with
    | none =>
      simp only [List.foldl_cons, List.filterMap_cons]
      show List.foldl legacyParamStep (legacyParamStep conv (k, none)) rest = _
      rw [show legacyParamStep conv (k, none) = conv from rfl]
      rw [ih conv (fun x hx => hf x (List.mem_cons_of_mem _ hx)) himg2.2
        (fun x hx p hp => hconv x (List.mem_cons_of_mem _ hx) p hp)]
      simp
    | some v =>
      have hk : k ≠ "fields" := hf (k, some v) (List.mem_cons_self _ _)
      have hstep : legacyParamStep conv (k, some v) = objInsert conv (legacyKey k) v := by
        cases v with
        | arr xs => simp [legacyParamStep, hk]
        | nonArr w => simp [legacyParamStep]
      have hfresh : ∀ p ∈ conv, p.1 ≠ legacyKey k :=
        fun p hp => hconv (k, some v) (List.mem_cons_self _ _) p hp
      simp only [List.foldl_cons, List.filterMap_cons]
      rw [show (legacyParamStep conv (k, some v)) = objInsert conv (legacyKey k) v from hstep,
        objInsert_fresh conv (legacyKey k) v hfresh]
      rw [ih (conv ++ [(legacyKey k, v)]) (fun x hx => hf x (List.mem_cons_of_mem _ hx))
        himg2.2 ?_]
      · simp
      · intro x hx p hp
        rcases List.mem_append.mp hp with h | h
        · exact hconv x (List.mem_cons_of_mem _ hx) p h
        · rcases List.mem_singleton.mp h with rfl
          intro he
          replace he : legacyKey k = legacyKey x.1 := he
          exact himg2.1 (by rw [he]; exact List.mem_map.mpr ⟨x, hx, rfl⟩)

/-!
Claim C6 — `toLegacyParams` on mappings without a `fields` key.
-/

/-- Claim C6: for a canonical parameter mapping with no `fields` key
(distinct, hyphen-free keys, as canonical snake/camel keys are), the
translation drops exactly the `undefined`-valued entries, rewrites each
remaining key containing an underscore to its hyphen-joined form,
preserves underscore-free keys byte-for-byte, and passes every retained
value through unchanged. -/
theorem c6_to_legacy_params (params : List (String × Option PVal))
    (hfields : ∀ kv ∈ params, kv.1 ≠ "fields")
    (hkeys : (params.map Prod.fst).Nodup)
    (hhyph : ∀ kv ∈ params, '-' ∉ kv.1.data) :
    toLegacyParams params
        = params.filterMap (fun kv => kv.2.map (fun v => (legacyKey kv.1, v)))
    ∧ (∀ k, '_' ∉ k.data → legacyKey k = k)
    ∧ (∀ k, legacyKey k = ⟨k.data.map (fun c => if c = '_' then '-' else c)⟩) := by
  refine ⟨?_, legacyKey_of_no_underscore, legacyKey_eq_map⟩
  have himg : (params.map (fun kv => legacyKey kv.1)).Nodup := by
    have : params.map (fun kv => legacyKey kv.1) = (params.map Prod.fst).map legacyKey := by
      rw [List.map_map]
      rfl
    rw [this]
    refine List.Nodup.map_on ?_ hkeys
    intro x hx y hy he
    rcases List.mem_map.mp hx with ⟨kx, hkx, rfl⟩
    rcases List.mem_map.mp hy with ⟨ky, hky, rfl⟩
    exact legacyKey_inj _ _ (hhyph kx hkx) (hhyph ky hky) he
  rw [toLegacyParams, legacyParamStep_foldl params [] hfields himg (by simp)]
  simp

/-- Witness for claim C6 on a concrete mapping: an underscore key is
hyphenated, a camelCase key passes through unchanged, and an
`undefined`-valued key is dropped. -/
theorem c6_to_legacy_params_witness :
    (∀ kv ∈ ([("download_dir", some (.nonArr (.vStr "/x"))),
              ("seedRatioLimit", some (.nonArr (.vNum 2))),
              ("peer_limit", none)] : List (String × Option PVal)), kv.1 ≠ "fields")
  ∧ toLegacyParams
        [("download_dir", some (.nonArr (.vStr "/x"))),
         ("seedRatioLimit", some (.nonArr (.vNum 2))),
         ("peer_limit", none)]
      = [("download-dir", PVal.nonArr (.vStr "/x")),
         ("seedRatioLimit", PVal.nonArr (.vNum 2))] := by
  constructor
  · intro kv hkv
    simp only [List.mem_cons, List.not_mem_nil, or_false] at hkv
    rcases hkv with rfl | rfl | rfl <;> decide
  · refine ((c6_to_legacy_params
      [("download_dir", some (.nonArr (.vStr "/x"))),
       ("seedRatioLimit", some (.nonArr (.vNum 2))),
       ("peer_limit", none)]
      ?_ (by decide) ?_).1).trans ?_
    · intro kv hkv
      simp only [List.mem_cons, List.not_mem_nil, or_false] at hkv
      rcases hkv with rfl | rfl | rfl <;> decide
    · intro kv hkv
      simp only [List.mem_cons, List.not_mem_nil, or_false] at hkv
      rcases hkv with rfl | rfl | rfl <;> decide
    · rfl

/-!
Claim C7 — the `fields` translation.
-/

/-- Claim C7: the translated `fields` list is the duplicate-free union
of the requested names followed by their camelCase forms, in order of
first occurrence (a sublist of the concatenation), and the translation
is idempotent: re-translating an already-translated list adds nothing. -/
theorem c7_fields_union (xs : List String) :
    (fieldsUnion xs).Nodup
  ∧ (∀ f, f ∈ fieldsUnion xs ↔ (f ∈ xs ∨ f ∈ xs.map snakeToCamel))
  ∧ List.Sublist (fieldsUnion xs) (xs ++ xs.map snakeToCamel)
  ∧ fieldsUnion (fieldsUnion xs) = fieldsUnion xs
  ∧ toLegacyParams [("fields", some (.arr xs))] = [("fields", PVal.arr (fieldsUnion xs))] := by
  refine ⟨nodup_dedupFirstAux _ _, ?_, sublist_dedupFirstAux _ _, ?_, rfl⟩
  · intro f
    rw [fieldsUnion, dedupFirst, mem_dedupFirstAux]
    simp
  · have hmem : ∀ f, f ∈ fieldsUnion xs ↔ (f ∈ xs ∨ f ∈ xs.map snakeToCamel) := by
      intro f
      rw [fieldsUnion, dedupFirst, mem_dedupFirstAux]
      simp
    rw [show fieldsUnion (fieldsUnion xs)
        = dedupFirstAux [] (fieldsUnion xs ++ (fieldsUnion xs).map snakeToCamel) from rfl]
    refine dedupFirstAux_append_absorb _ _ _ (nodup_dedupFirstAux _ _) (by simp) ?_
    intro a ha
    rcases List.mem_map.mp ha with ⟨y, hy, rfl⟩
    left
    rcases (hmem y).mp hy with h | h
    · exact (hmem _).mpr (Or.inr (List.mem_map.mpr ⟨y, h, rfl⟩))
    · rcases List.mem_map.mp h with ⟨x, hx, rfl⟩
      rw [snakeToCamel_idem]
      exact (hmem _).mpr (Or.inr (List.mem_map.mpr ⟨x, hx, rfl⟩))

/-!
Lemmas collapsing `??`-chains into first-non-absent selections.
-/

/-- A two-candidate chain with numeric default equals the first
non-nullish candidate or the default. -/
theorem qq_flat2 (a b : Option JVal) :
    (qq (qq a b) (some (.vNum 0))).getD .vNull = (firstNonNullish [a, b]).getD (.vNum 0) := by
  cases a with
  | some v =>
    cases v with
    | vNull =>
      cases b with
      | some w => cases w <;> rfl
      | none => rfl
    | vBool x => rfl
    | vNum x => rfl
    | vStr x => rfl
    | vArr x => rfl
    | vObj x => rfl
  | none =>
    cases b with
    | some w => cases w <;> rfl
    | none => rfl

/-- The duplicated four-step chain of `percent_done` collapses to the
same two-candidate selection. -/
theorem qq_flat2dup (a b : Option JVal) :
    (qq (qq (qq (qq a b) a) b) (some (.vNum 0))).getD .vNull
      = (firstNonNullish [a, b]).getD (.vNum 0) := by
  cases a with
  | some v =>
    cases v with
    | vNull =>
      cases b with
      | some w => cases w <;> rfl
      | none => rfl
    | vBool x => rfl
    | vNum x => rfl
    | vStr x => rfl
    | vArr x => rfl
    | vObj x => rfl
  | none =>
    cases b with
    | some w => cases w <;> rfl
    | none => rfl

/-- A two-candidate chain without default, normalized for nullish
results, is the first non-nullish candidate. -/
theorem qq_nn2 (a b : Option JVal) : nnOpt (qq a b) = firstNonNullish [a, b] := by
  cases a with
  | some v =>
    cases v with
    | vNull =>
      cases b with
      | some w => cases w <;> rfl
      | none => rfl
    | vBool x => rfl
    | vNum x => rfl
    | vStr x => rfl
    | vArr x => rfl
    | vObj x => rfl
  | none =>
    cases b with
    | some w => cases w <;> rfl
    | none => rfl

/-- A three-candidate chain without default, normalized for nullish
results, is the first non-nullish candidate. -/
theorem qq_nn3 (a b c : Option JVal) :
    nnOpt (qq (qq a b) c) = firstNonNullish [a, b, c] := by
  cases a with
  | some v =>
    cases v with
    | vNull => exact qq_nn2 b c
    | vBool x => rfl
    | vNum x => rfl
    | vStr x => rfl
    | vArr x => rfl
    | vObj x => rfl
  | none => exact qq_nn2 b c

/-!
Claim C5 — reconciliation priority order.
-/

/-- Claim C5 counterexample: for the nested current-statistics block
the source checks the hyphenated spelling before the camelCase one, so
on an object carrying both `current-stats` and `currentStats` the
reconciled value is the hyphenated one, while the claimed priority
order (underscore, camelCase, hyphenated) selects the camelCase one. -/
theorem c5_counterexample :
    statsCurrentStats (.vObj [("current-stats", .vNum 1), ("currentStats", .vNum 2)])
      = some (.vNum 1)
  ∧ specPriorityOrder (.vObj [("current-stats", .vNum 1), ("currentStats", .vNum 2)])
      "current_stats" "currentStats" "current-stats" = some (.vNum 2)
  ∧ JVal.vNum 1 ≠ JVal.vNum 2 := by
  refine ⟨rfl, rfl, fun h => ?_⟩
  injection h with h'
  exact absurd h' (by decide)

/-- Claim C5 (amended): every reconciled attribute is the first
non-absent value among the spellings its selector consults, in the
order of that selector — underscore then camelCase for the flat attributes
(the hyphenated form is not consulted), and underscore then hyphenated
then camelCase for the nested current/cumulative statistics blocks; in
particular `downloaded_bytes: 5` beats `downloadedBytes: 9`. -/
theorem c5_reconciliation_priority (o : JVal) :
    (nnOpt (statsCurrentStats o)
      = firstNonNullish [getF o "current_stats", getF o "current-stats", getF o "currentStats"])
  ∧ (nnOpt (statsCumulativeStats o)
      = firstNonNullish
          [getF o "cumulative_stats", getF o "cumulative-stats", getF o "cumulativeStats"])
  ∧ (statsActiveTorrentCount o
      = (firstNonNullish [getF o "active_torrent_count", getF o "activeTorrentCount"]).getD
          (.vNum 0))
  ∧ (statsPausedTorrentCount o
      = (firstNonNullish [getF o "paused_torrent_count", getF o "pausedTorrentCount"]).getD
          (.vNum 0))
  ∧ (statsTorrentCount o
      = (firstNonNullish [getF o "torrent_count", getF o "torrentCount"]).getD (.vNum 0))
  ∧ (statsDownloadSpeed o
      = (firstNonNullish [getF o "download_speed", getF o "downloadSpeed"]).getD (.vNum 0))
  ∧ (statsUploadSpeed o
      = (firstNonNullish [getF o "upload_speed", getF o "uploadSpeed"]).getD (.vNum 0))
  ∧ (nnOpt (blockDownloadedBytes o)
      = firstNonNullish [getF o "downloaded_bytes", getF o "downloadedBytes"])
  ∧ (nnOpt (blockUploadedBytes o)
      = firstNonNullish [getF o "uploaded_bytes", getF o "uploadedBytes"])
  ∧ (nnOpt (blockFilesAdded o) = firstNonNullish [getF o "files_added", getF o "filesAdded"])
  ∧ (nnOpt (blockSecondsActive o)
      = firstNonNullish [getF o "seconds_active", getF o "secondsActive"])
  ∧ (nnOpt (blockSessionCount o)
      = firstNonNullish [getF o "session_count", getF o "sessionCount"])
  ∧ (torrentPercentDone o
      = (firstNonNullish [getF o "percent_done", getF o "percentDone"]).getD (.vNum 0))
  ∧ (torrentSizeWhenDone o
      = (firstNonNullish [getF o "size_when_done", getF o "sizeWhenDone"]).getD (.vNum 0))
  ∧ (torrentDownloadedEver o
      = (firstNonNullish [getF o "downloaded_ever", getF o "downloadedEver"]).getD (.vNum 0))
  ∧ (torrentUploadedEver o
      = (firstNonNullish [getF o "uploaded_ever", getF o "uploadedEver"]).getD (.vNum 0))
  ∧ (torrentUploadRatio o
      = (firstNonNullish [getF o "upload_ratio", getF o "uploadRatio"]).getD (.vNum 0))
  ∧ (torrentRateDownload o
      = (firstNonNullish [getF o "rate_download", getF o "rateDownload"]).getD (.vNum 0))
  ∧ (torrentRateUpload o
      = (firstNonNullish [getF o "rate_upload", getF o "rateUpload"]).getD (.vNum 0))
  ∧ (torrentPeersConnected o
      = (firstNonNullish [getF o "peers_connected", getF o "peersConnected"]).getD (.vNum 0))
  ∧ (torrentAddedDate o
      = (firstNonNullish [getF o "added_date", getF o "addedDate"]).getD (.vNum 0))
  ∧ (torrentDoneDate o
      = (firstNonNullish [getF o "done_date", getF o "doneDate"]).getD (.vNum 0))
  ∧ (nnOpt (torrentErrorString o)
      = firstNonNullish [getF o "error_string", getF o "errorString"])
  ∧ (blockDownloadedBytes (.vObj [("downloaded_bytes", .vNum 5), ("downloadedBytes", .vNum 9)])
      = some (.vNum 5)) :=
  ⟨qq_nn3 _ _ _, qq_nn3 _ _ _, qq_flat2 _ _, qq_flat2 _ _, qq_flat2 _ _, qq_flat2 _ _,
   qq_flat2 _ _, qq_nn2 _ _, qq_nn2 _ _, qq_nn2 _ _, qq_nn2 _ _, qq_nn2 _ _,
   qq_flat2dup _ _, qq_flat2 _ _, qq_flat2 _ _, qq_flat2 _ _, qq_flat2 _ _, qq_flat2 _ _,
   qq_flat2 _ _, qq_flat2 _ _, qq_flat2 _ _, qq_flat2 _ _, qq_nn2 _ _, rfl⟩
